import Mathlib

/-
Verification development for scripts/geodata/osm/admin_boundaries.py
(OSMPolygonReader and its subclasses).

The Python source is shallowly embedded below.  Python typed arrays become
Lean lists; dictionaries become association lists (CPython 2 iterates
integer-keyed dicts in hash-table order, which for the small non-negative
keys used in this development coincides with ascending numeric order, so
the node-endpoint dictionary is kept sorted by key); IEEE doubles carry no
arithmetic in this code beyond an exact comparison with 180.0 and are
embedded as rationals; an uncaught Python exception is embedded as the
value none of an Option, and the raise-ValueError/except-ValueError pair
around binary search is embedded as an Option round trip.

Parts of the repository that admin_boundaries.py imports are not part of
the source extract (geodata.osm.extract, geodata.graph.scc,
geodata.coordinates.conversion, geodata.math.floats).  Definitions for
those parts are marked "Modelled from the spec:" in their doc comments and
follow the specification text only.
-/

namespace AdminBoundaries

/-- Tag maps: Python string-to-string dictionaries, embedded as
insertion-ordered association lists. -/
abbrev TagMap := List (String × String)

/-- Coordinate pair (longitude, latitude) as stored by the reader. -/
abbrev Coord := Rat × Rat

/-- Python dict lookup over an association list, first binding wins
(bindings are kept unique by dictSet). -/
def dictGet {κ α : Type} [DecidableEq κ] : List (κ × α) → κ → Option α
  | [], _ => none
  | (k', v) :: rest, k => if k' = k then some v else dictGet rest k

/-- Python dict assignment: replace the value in place when the key is
present (keeping its position), append a new binding otherwise. -/
def dictSet {κ α : Type} [DecidableEq κ] : List (κ × α) → κ → α → List (κ × α)
  | [], k, v => [(k, v)]
  | (k', v') :: rest, k, v =>
    if k' = k then (k, v) :: rest else (k', v') :: dictSet rest k v

/-- Embeds end_nodes, the defaultdict(list) keyed by node id:
append v to the list bound to k, creating the binding when absent.  The
association list is kept sorted by key so that iterating it in order
models CPython 2 integer-dict iteration for the small non-negative node
ids appearing in this development. -/
def idictAppend : List (Int × List Int) → Int → Int → List (Int × List Int)
  | [], k, v => [(k, [v])]
  | (k', vs) :: rest, k, v =>
    if k < k' then (k, [v]) :: (k', vs) :: rest
    else if k' = k then (k, vs ++ [v]) :: rest
    else (k', vs) :: idictAppend rest k v

/-- Embeds way_graph, the defaultdict(OrderedDict): record the edge k -> v,
keeping key insertion order and neighbor insertion order, never
duplicating a neighbor (repeated OrderedDict assignment keeps position). -/
def odAdd : List (Int × List Int) → Int → Int → List (Int × List Int)
  | [], k, v => [(k, [v])]
  | (k', vs) :: rest, k, v =>
    if k' = k then (k, if v ∈ vs then vs else vs ++ [v]) :: rest
    else (k', vs) :: odAdd rest k v

/-- itertools.combinations(l, 2), in its enumeration order. -/
def combinations2 : List Int → List (Int × Int)
  | [] => []
  | x :: xs => xs.map (fun y => (x, y)) ++ combinations2 xs

/-- Embeds zip(node_coords[::2], node_coords[1::2]): consecutive pairs of
a flat interleaved list; a trailing odd element is dropped, as zip drops
the unmatched tail. -/
def pairUp : List Rat → List Coord
  | x :: y :: rest => (x, y) :: pairUp rest
  | _ => []

/-- Lowercasing of one character; definitionally equal to Char.toLower
(charLower c = c.toLower holds by rfl), restated so that the kernel can
evaluate it. -/
def charLower (c : Char) : Char :=
  if 65 ≤ c.toNat ∧ c.toNat ≤ 90 then Char.ofNat (c.toNat + 32) else c

/-- Python str.lower over the tag values used here: lowercase every
character.  String.toLower computes the same string but is not
kernel-reducible, so the map over the character list is used instead. -/
def strLower (s : String) : String := String.mk (s.data.map charLower)

/-- Modelled from the spec: WAY_OFFSET, the additive namespace constant
for segment-derived results (imported from geodata.osm.extract, which is
not under src/); section 6 requires only a fixed constant disjoint from
RELATION_OFFSET. -/
def WAY_OFFSET : Int := 10 ^ 15

/-- Modelled from the spec: RELATION_OFFSET, the additive namespace
constant for relation-derived results (imported from geodata.osm.extract,
not under src/). -/
def RELATION_OFFSET : Int := 2 * 10 ^ 15

/-- Modelled from the spec: isclose from geodata.math.floats (not under
src/), used only as isclose(lon, 180.0); in the exact rational embedding
the closeness test on the decimal constants involved is equality. -/
def isclose (a b : Rat) : Bool := a == b

/-- Longitude normalization in the node branch: values close to +180 are
replaced by 179.999 to avoid antimeridian ambiguity. -/
def clampLon (lon : Rat) : Rat := if isclose lon 180 then 179.999 else lon

/-- Python bisect.bisect_left while loop; the interval shrinks at every
iteration, so any fuel exceeding the initial interval width is enough. -/
def blAux (a : List Int) (x : Int) : Nat → Nat → Nat → Nat
  | 0, lo, _ => lo
  | fuel + 1, lo, hi =>
    if lo < hi then
      let mid := (lo + hi) / 2
      if a.getD mid 0 < x then blAux a x fuel (mid + 1) hi
      else blAux a x fuel lo mid
    else lo

/-- bisect_left(a, x) over the whole list. -/
def bisect_left (a : List Int) (x : Int) : Nat :=
  blAux a x (a.length + 1) 0 a.length

/-- OSMPolygonReader.binary_search: locate the leftmost value exactly
equal to x; some i embeds a successful return, none embeds the raised
ValueError. -/
def binary_search (a : List Int) (x : Int) : Option Nat :=
  let i := bisect_left a x
  match a.get? i with
  | some v => if v = x then some i else none
  | none => none

/-- Embeds the list comprehension
[self.binary_search(self.node_ids, node_id) for node_id in deps]:
the whole comprehension fails (ValueError propagates) as soon as one
member fails. -/
def resolveAll (ids : List Int) : List Int → Option (List Nat)
  | [] => some []
  | d :: rest =>
    match binary_search ids d with
    | none => none
    | some i =>
      match resolveAll ids rest with
      | none => none
      | some is => some (i :: is)

/-- OSMPolygonReader.node_coordinates: slice the flat interleaved
coordinate array between offsets indptr[idx] and indptr[idx+1] (both
doubled) and pair it up. -/
def node_coordinates (coords : List Rat) (indptr : List Nat) (idx : Nat) : List Coord :=
  pairUp ((coords.take (2 * indptr.getD (idx + 1) 0)).drop (2 * indptr.getD idx 0))

/-- OSMPolygonReader.sparse_deps: the slice data[indptr[idx]:indptr[idx+1]]. -/
def sparse_deps (data : List Int) (indptr : List Nat) (idx : Nat) : List Int :=
  (data.take (indptr.getD (idx + 1) 0)).drop (indptr.getD idx 0)

/-- The reader state (the mutable fields of OSMPolygonReader, plus the
admin-center accumulator).  node_ids and coords are Options because the
relation branch sets them to None (release of point storage).
admin_centers is modelled from the spec: the source references it without
a visible owner (section 9 of the spec describes it as a shared, run-wide
collection of admin-center candidates); it starts empty and is never
reset between relations. -/
structure Store where
  node_ids : Option (List Int)
  coords : Option (List Rat)
  nodes : List (Int × TagMap)
  way_ids : List Int
  way_deps : List Int
  way_coords : List Rat
  way_indptr : List Nat
  admin_centers : List TagMap
deriving DecidableEq

/-- The state built by OSMPolygonReader.__init__. -/
def initStore : Store :=
  { node_ids := some []
    coords := some []
    nodes := []
    way_ids := []
    way_deps := []
    way_coords := []
    way_indptr := [0]
    admin_centers := [] }

/-- Accumulator of the first loop of create_polygons. -/
structure CPAcc where
  end_nodes : List (Int × List Int)
  polys : List (List Coord)
  way_indices : List (Int × Nat)
  start_end : List (Int × Int × Int)
deriving DecidableEq

/-- One iteration of the first loop of create_polygons: resolve the way,
cache its index and endpoints, emit a closed way directly as a ring, and
register an open way under both endpoints. -/
def cpStep (st : Store) (acc : CPAcc) (way_id : Int) : CPAcc :=
  match binary_search st.way_ids way_id with
  | none => acc
  | some way_index =>
    let way_indices := dictSet acc.way_indices way_id way_index
    let start_node_id := st.way_deps.getD (st.way_indptr.getD way_index 0) 0
    let end_node_id := st.way_deps.getD (st.way_indptr.getD (way_index + 1) 0 - 1) 0
    let start_end := dictSet acc.start_end way_id (start_node_id, end_node_id)
    if start_node_id = end_node_id then
      { end_nodes := acc.end_nodes
        polys := acc.polys ++ [node_coordinates st.way_coords st.way_indptr way_index]
        way_indices := way_indices
        start_end := start_end }
    else
      { end_nodes := idictAppend (idictAppend acc.end_nodes start_node_id way_id) end_node_id way_id
        polys := acc.polys
        way_indices := way_indices
        start_end := start_end }

/-- The second loop of create_polygons: for every endpoint shared by two
or more ways add the pairwise edges between the ways meeting there. -/
def buildWayGraph (end_nodes : List (Int × List Int)) : List (Int × List Int) :=
  end_nodes.foldl
    (fun g p => (combinations2 p.2).foldl
      (fun g pr => odAdd (odAdd g pr.1 pr.2) pr.2 pr.1) g) []

/-- Total size of an adjacency list, used as a fuel bound. -/
def graphSize (g : List (Int × List Int)) : Nat :=
  g.foldl (fun a p => a + 1 + p.2.length) 0

/-- Depth-first traversal collecting one connected group in discovery
order; the fuel bound graphSize g + 1 covers it because a vertex is
expanded only on its first visit. -/
def ccDfs (g : List (Int × List Int)) :
    Nat → List Int → List Int → List Int → List Int × List Int
  | 0, _, vis, comp => (comp, vis)
  | _ + 1, [], vis, comp => (comp, vis)
  | fuel + 1, x :: stack, vis, comp =>
    if x ∈ vis then ccDfs g fuel stack vis comp
    else ccDfs g fuel (((dictGet g x).getD []) ++ stack) (vis ++ [x]) (comp ++ [x])

/-- Modelled from the spec: strongly_connected_components from
geodata.graph.scc (not under src/).  Per section 4.3 step 4 the procedure,
applied to the symmetric way graph, computes the connected groups of the
graph (every edge is mutual); each group is listed in discovery order
starting from its first-listed member, the spec calling the choice of
starting member arbitrary. -/
def connected_components (g : List (Int × List Int)) : List (List Int) :=
  (g.foldl
    (fun (acc : List (List Int) × List Int) p =>
      if p.1 ∈ acc.2 then acc
      else
        let r := ccDfs g (graphSize g + 1) [p.1] acc.2 []
        (acc.1 ++ [r.1], r.2))
    ([], [])).1

/-- Fuel for the ring walk.  A way is pushed on the stack only while
unseen, and a given neighbor can push it at most once (any later copy of
that neighbor is popped only after everything pushed above it, including
the way itself), so the queue receives at most one initial entry plus one
entry per directed edge; graphSize bounds that. -/
def walkFuel (g : List (Int × List Int)) : Nat := 1 + graphSize g

/-- The while-q loop of create_polygons: an oriented depth-first walk over
one connected group.  The Python stack (append to the end, pop from the
end) is embedded with the head of the list as the top of the stack, so a
run of appends is reversed before being pushed. -/
def walkLoop (st : Store) (g : List (Int × List Int))
    (way_indices : List (Int × Nat)) (start_end : List (Int × Int × Int)) :
    Nat → List (Int × Bool) → List Int → List Coord → List Coord
  | 0, _, _, acc => acc
  | _ + 1, [], _, acc => acc
  | fuel + 1, (way_id, rev) :: q, seen, acc =>
    let way_index := (dictGet way_indices way_id).getD 0
    let ncs0 := node_coordinates st.way_coords st.way_indptr way_index
    let he := (dictGet start_end way_id).getD (0, 0)
    let ncs := if rev then ncs0.reverse else ncs0
    let head := if rev then he.2 else he.1
    let tail := if rev then he.1 else he.2
    let pushes := ((dictGet g way_id).getD []).filterMap (fun nb =>
      if nb ∈ seen then none
      else
        let nhe := (dictGet start_end nb).getD (0, 0)
        some (nb, nhe.1 == head || nhe.2 == tail))
    let q' := pushes.reverse ++ q
    let seg := if q'.isEmpty then (ncs.drop 1).dropLast else ncs.dropLast
    walkLoop st g way_indices start_end fuel q' (seen ++ [way_id]) (acc ++ seg)

/-- OSMPolygonReader.create_polygons: resolve the ways, emit closed ways
directly, build the endpoint-sharing graph over the open ways, and walk
each connected group into one ring. -/
def create_polygons (st : Store) (ways : List Int) : List (List Coord) :=
  let acc := ways.foldl (cpStep st) ⟨[], [], [], []⟩
  let g := buildWayGraph acc.end_nodes
  let comps := connected_components g
  comps.foldl
    (fun polys comp =>
      match comp with
      | [] => polys
      | c :: _ =>
        polys ++ [walkLoop st g acc.way_indices acc.start_end (walkFuel g) [(c, false)] [] []])
    acc.polys

/-- The three concrete subclasses of OSMPolygonReader, i.e. the active
inclusion policy. -/
inductive Policy where
  | admin
  | subdivision
  | building
deriving DecidableEq

/-- include_polygon of OSMAdminPolygonReader, OSMSubdivisionPolygonReader
and OSMBuildingPolygonReader. -/
def include_polygon (pol : Policy) (props : TagMap) : Bool :=
  match pol with
  | .admin => (dictGet props "boundary").isSome || (dictGet props "place").isSome
  | .subdivision =>
    (dictGet props "landuse").isSome || (dictGet props "place").isSome
      || (dictGet props "amenity").isSome
  | .building =>
    (dictGet props "building").isSome || (dictGet props "building:part").isSome
      || dictGet props "type" == some "building"

/-- One parsed input record, as delivered by parse_osm.  Modelled from the
spec for the parts owned by the source parser (not under src/): the
element id is already split into its numeric part; the latitude/longitude
of a node is the result of the lat/lon tag lookup composed with
latlon_to_decimal (coordinate conversion is out of scope for the core),
with none when either stage fails; relation dependencies are (member
identifier, role string) pairs. -/
inductive Element where
  | node (id : Int) (props : TagMap) (latlon : Option (Rat × Rat))
  | way (id : Int) (props : TagMap) (deps : List Int)
  | relation (id : Int) (props : TagMap) (members : List (Int × String))
deriving DecidableEq

/-- One yielded tuple of OSMPolygonReader.polygons: the five-tuple of the
geometry pass, or the three-tuple of the properties-only pass. -/
inductive Emission where
  | full (id : Int) (props : TagMap) (admin_center : TagMap)
      (outer inner : List (List Coord))
  | propsOnly (id : Int) (props : TagMap) (admin_center : TagMap)
deriving DecidableEq

/-- The accumulator of the relation member loop: outer way ids, inner way
ids, the nodes dict (the admin-centre branch mutates the retained tag map
in place via val[id-key] assignment), and the admin-center candidate
accumulator. -/
structure RelAcc where
  outer_ways : List Int
  inner_ways : List Int
  nodes : List (Int × TagMap)
  admin_centers : List TagMap
deriving DecidableEq

/-- One iteration of the member loop of the relation branch. -/
def relStep (acc : RelAcc) (m : Int × String) : RelAcc :=
  if m.2 = "outer" ∨ m.2 = "" then
    { acc with outer_ways := acc.outer_ways ++ [m.1] }
  else if m.2 = "inner" then
    { acc with inner_ways := acc.inner_ways ++ [m.1] }
  else if m.2 = "admin_centre" then
    match dictGet acc.nodes m.1 with
    | none => acc
    | some val =>
      let val' := dictSet val "id" (toString m.1)
      { acc with
        nodes := dictSet acc.nodes m.1 val'
        admin_centers := acc.admin_centers ++ [val'] }
  else acc

/-- One step of the OSMPolygonReader.polygons generator on one input
record.  Returns the updated state and the records yielded during the
step; none embeds an uncaught Python exception terminating the generator
(appending to released point storage, or binary search over the released
identifier index, or reading deps[0] of an empty way). -/
def processElement (pol : Policy) (properties_only : Bool) (st : Store) :
    Element → Option (Store × List Emission)
  | .node node_id props latlon =>
    match latlon with
    | none => some (st, [])
    | some (lat, lon) =>
      let lon := clampLon lon
      let nodes' :=
        if (dictGet props "name").isSome && (dictGet props "place").isSome then
          dictSet st.nodes node_id props
        else st.nodes
      match st.coords, st.node_ids with
      | some cs, some ids =>
        some ({ st with
                  nodes := nodes'
                  coords := some (cs ++ [lon, lat])
                  node_ids := some (ids ++ [node_id]) }, [])
      | _, _ => none
  | .way way_id props deps =>
    match st.node_ids with
    | none => none
    | some ids =>
      match resolveAll ids deps with
      | none => some (st, [])
      | some node_indices =>
        match st.coords with
        | none => none
        | some cs =>
          let st' := { st with
            way_ids := st.way_ids ++ [way_id]
            way_deps := st.way_deps ++ deps
            way_coords := st.way_coords ++ node_indices.foldl
              (fun a i => a ++ [cs.getD (2 * i) 0, cs.getD (2 * i + 1) 0]) []
            way_indptr := st.way_indptr ++ [st.way_deps.length + deps.length] }
          match deps.head?, deps.getLast? with
          | some f, some l =>
            if f = l then
              if include_polygon pol props then
                if properties_only then
                  some (st', [.propsOnly (WAY_OFFSET + way_id) props []])
                else
                  some (st', [.full (WAY_OFFSET + way_id) props []
                    (create_polygons st' [way_id]) []])
              else some (st', [])
            else some (st', [])
          | _, _ => none
  | .relation relation_id props members =>
    let st := { st with node_ids := none, coords := none }
    if members.isEmpty || !include_polygon pol props
        || strLower ((dictGet props "type").getD "") == "multilinestring" then
      some (st, [])
    else
      let acc := members.foldl relStep
        ⟨[], [], st.nodes, st.admin_centers⟩
      let admin_center : TagMap :=
        if acc.admin_centers.length = 1 then acc.admin_centers.head?.getD [] else []
      let st' := { st with nodes := acc.nodes, admin_centers := acc.admin_centers }
      if properties_only then
        some (st', [.propsOnly (RELATION_OFFSET + relation_id) props admin_center])
      else
        some (st', [.full (RELATION_OFFSET + relation_id) props admin_center
          (create_polygons st' acc.outer_ways) (create_polygons st' acc.inner_ways)])

/-- Run the generator over a list of input records from a given state,
collecting everything yielded; a none final state records that the run
died with an uncaught exception after the collected emissions. -/
def runPoly (pol : Policy) (properties_only : Bool) :
    Store → List Element → List Emission × Option Store
  | st, [] => ([], some st)
  | st, e :: rest =>
    match processElement pol properties_only st e with
    | none => ([], none)
    | some (st', out) =>
      let r := runPoly pol properties_only st' rest
      (out ++ r.1, r.2)

/-- A full pipeline run from the freshly initialized reader. -/
def polygons (pol : Policy) (properties_only : Bool) (input : List Element) :
    List Emission × Option Store :=
  runPoly pol properties_only initStore input

/-- A point lookup against the store: resolve the identifier in the point
index and read the interleaved coordinates, exactly as the way branch
does; it can only succeed while point storage is live. -/
def resolve_point (st : Store) (node_id : Int) : Option Coord :=
  match st.node_ids, st.coords with
  | some ids, some cs =>
    match binary_search ids node_id with
    | some i => some (cs.getD (2 * i) 0, cs.getD (2 * i + 1) 0)
    | none => none
  | _, _ => none

/-- Point storage and its identifier index have been released. -/
def Released (st : Store) : Prop := st.node_ids = none ∧ st.coords = none

/-- The compressed-sparse-row invariant of the way store: the offset index
starts at 0, is monotonically non-decreasing, its final entry is the total
length of way_deps, and it carries one entry per stored way plus one. -/
def CsrOk (st : Store) : Prop :=
  st.way_indptr.head? = some 0
    ∧ List.Chain' (· ≤ ·) st.way_indptr
    ∧ st.way_indptr.getLast? = some st.way_deps.length
    ∧ st.way_indptr.length = st.way_ids.length + 1

/-! ### Binary search (claim C3) -/

/-- Strict sortedness gives strict order between entries at ordered
positions. -/
theorem sorted_lt {a : List Int} (hs : List.Sorted (· < ·) a) {i j : Nat}
    (hi : i < a.length) (hj : j < a.length) (hij : i < j) : a[i] < a[j] :=
  List.Sorted.rel_get_of_lt hs (by exact hij)

/-- Loop invariant of the bisect_left while loop: everything below the
returned position is strictly below x, nothing at or above it is. -/
theorem blAux_spec (a : List Int) (x : Int) (hs : List.Sorted (· < ·) a) :
    ∀ (fuel lo hi : Nat), hi - lo < fuel → lo ≤ hi → hi ≤ a.length →
      (∀ j (hj : j < a.length), j < lo → a[j] < x) →
      (∀ j (hj : j < a.length), hi ≤ j → ¬ a[j] < x) →
      (∀ j (hj : j < a.length), j < blAux a x fuel lo hi → a[j] < x)
        ∧ (∀ j (hj : j < a.length), blAux a x fuel lo hi ≤ j → ¬ a[j] < x)
        ∧ blAux a x fuel lo hi ≤ a.length := by
  intro fuel
  induction fuel with
  | zero => intro lo hi h; omega
  | succ fuel ih =>
    intro lo hi hfuel hlohi hhi hlow hhigh
    simp only [blAux]
    by_cases hlt : lo < hi
    · rw [if_pos hlt]
      have hmidlt : (lo + hi) / 2 < hi := by omega
      have hmidge : lo ≤ (lo + hi) / 2 := by omega
      have hmidlen : (lo + hi) / 2 < a.length := lt_of_lt_of_le hmidlt hhi
      by_cases hcmp : a.getD ((lo + hi) / 2) 0 < x
      · rw [if_pos hcmp]
        rw [List.getD_eq_getElem a 0 hmidlen] at hcmp
        refine ih ((lo + hi) / 2 + 1) hi (by omega) (by omega) hhi ?_ hhigh
        intro j hj hjlt
        rcases Nat.lt_or_ge j lo with h2 | h2
        · exact hlow j hj h2
        · have hjmid : j ≤ (lo + hi) / 2 := by omega
          rcases Nat.lt_or_eq_of_le hjmid with h3 | h3
          · exact lt_trans (sorted_lt hs hj hmidlen h3) hcmp
          · subst h3; exact hcmp
      · rw [if_neg hcmp]
        rw [List.getD_eq_getElem a 0 hmidlen] at hcmp
        refine ih lo ((lo + hi) / 2) (by omega) (by omega) (le_of_lt hmidlen) hlow ?_
        intro j hj hjge
        rcases Nat.lt_or_eq_of_le hjge with h3 | h3
        · exact fun h4 => hcmp (lt_trans (sorted_lt hs hmidlen hj h3) h4)
        · subst h3; exact hcmp
    · rw [if_neg hlt]
      have hle : hi ≤ lo := Nat.le_of_not_lt hlt
      refine ⟨hlow, ?_, le_trans hlohi hhi⟩
      intro j hj hjge
      exact hhigh j hj (le_trans hle hjge)

/-- Specification of bisect_left on a strictly ascending list. -/
theorem bisect_left_spec (a : List Int) (x : Int) (hs : List.Sorted (· < ·) a) :
    (∀ j (hj : j < a.length), j < bisect_left a x → a[j] < x)
      ∧ (∀ j (hj : j < a.length), bisect_left a x ≤ j → ¬ a[j] < x)
      ∧ bisect_left a x ≤ a.length := by
  have h := blAux_spec a x hs (a.length + 1) 0 a.length (by omega) (by omega)
    (le_refl _)
    (fun j _ hl => absurd hl (Nat.not_lt_zero j))
    (fun j hj hl => absurd hj (Nat.not_lt.mpr hl))
  exact h

/-- C3: for every strictly ascending integer sequence, binary_search
(the locate operation) returns the leftmost position whose element equals
the queried identifier whenever the identifier is present (under strict
ascent that position is unique), and fails with ValueError (embedded as
none) whenever the identifier is absent. -/
theorem c3_binary_search_locate (a : List Int) (x : Int)
    (hs : List.Sorted (· < ·) a) :
    (∀ (i : Nat) (hi : i < a.length), a[i] = x → binary_search a x = some i)
      ∧ (x ∉ a → binary_search a x = none) := by
  obtain ⟨hlt, hge, hle⟩ := bisect_left_spec a x hs
  constructor
  · intro i hi hix
    have h1 : ¬ i < bisect_left a x := by
      intro h
      have := hlt i hi h
      rw [hix] at this
      exact lt_irrefl x this
    have h2 : bisect_left a x = i := by
      rcases Nat.lt_or_ge (bisect_left a x) i with h | h
      · have hr : bisect_left a x < a.length := lt_trans h hi
        have h3 : a[bisect_left a x] < x := by
          have h4 := sorted_lt hs hr hi h
          rw [hix] at h4
          exact h4
        exact absurd h3 (hge _ hr (le_refl _))
      · omega
    have hx' : a.get ⟨i, hi⟩ = x := by
      rw [List.get_eq_getElem]
      exact hix
    simp only [binary_search]
    rw [h2, List.get?_eq_get hi, hx']
    simp
  · intro hx
    simp only [binary_search]
    rcases Nat.lt_or_ge (bisect_left a x) a.length with h | h
    · rw [List.get?_eq_get h]
      have hne : a[bisect_left a x] ≠ x := by
        intro he
        exact hx (he ▸ List.get_mem a _ h)
      simp [hne]
    · rw [List.get?_eq_none.mpr h]

/-- Witness for C3 at the ascending sequence [2, 5, 9]: the present id 5
is located at position 1, the absent id 4 fails. -/
theorem c3_binary_search_locate_witness :
    List.Sorted (· < ·) [(2 : Int), 5, 9]
      ∧ binary_search [(2 : Int), 5, 9] 5 = some 1
      ∧ binary_search [(2 : Int), 5, 9] 4 = none := by
  have hs : List.Sorted (· < ·) [(2 : Int), 5, 9] := by decide
  refine ⟨hs, ?_, ?_⟩
  · exact (c3_binary_search_locate _ 5 hs).1 1 (by decide) (by decide)
  · exact (c3_binary_search_locate _ 4 hs).2 (by decide)

/-! ### Skipping ways with unresolvable members (claim C5) -/

/-- The member-resolution comprehension fails as soon as any single
member fails to resolve. -/
theorem resolveAll_eq_none {ids deps : List Int} {d : Int}
    (hd : d ∈ deps) (hn : binary_search ids d = none) :
    resolveAll ids deps = none := by
  induction deps with
  | nil => cases hd
  | cons a rest ih =>
    rcases List.mem_cons.mp hd with h | h
    · subst h
      simp only [resolveAll, hn]
    · simp only [resolveAll]
      cases hb : binary_search ids a with
      | none => rfl
      | some i => rw [ih h]

/-- C5: a way any of whose member point identifiers is unresolvable in
the point index is skipped whole: the store comes back unchanged (so
way_ids, way_deps, way_coords and way_indptr are exactly as before) and
nothing is emitted for that way. -/
theorem c5_skip_unresolvable_way (pol : Policy) (po : Bool) (st : Store)
    (way_id : Int) (props : TagMap) (deps : List Int) (ids : List Int)
    (d : Int) (hids : st.node_ids = some ids) (hd : d ∈ deps)
    (hn : binary_search ids d = none) :
    processElement pol po st (.way way_id props deps) = some (st, []) := by
  simp only [processElement, hids, resolveAll_eq_none hd hn]

/-- Witness for C5: a store holding only point 5; the way [6] references
the absent point 6 and is skipped with the store unchanged. -/
theorem c5_skip_unresolvable_way_witness :
    processElement .admin false
        { initStore with node_ids := some [5], coords := some [1, 2] }
        (.way 10 [] [6])
      = some ({ initStore with node_ids := some [5], coords := some [1, 2] }, []) :=
  c5_skip_unresolvable_way .admin false _ 10 [] [6] [5] 6 rfl (by decide)
    (by decide)

/-! ### Release of point storage (claims C4, C8, C10) -/

/-- Processing any relation record leaves the point store released. -/
theorem relation_release (pol : Policy) (po : Bool) (st : Store) (rid : Int)
    (props : TagMap) (members : List (Int × String)) (st' : Store)
    (out : List Emission)
    (h : processElement pol po st (.relation rid props members) = some (st', out)) :
    Released st' := by
  simp only [processElement] at h
  split at h
  · have h3 : st' = _ := congrArg Prod.fst (Option.some.inj h).symm
    rw [h3]; exact ⟨rfl, rfl⟩
  · split at h
    · have h3 : st' = _ := congrArg Prod.fst (Option.some.inj h).symm
      rw [h3]; exact ⟨rfl, rfl⟩
    · have h3 : st' = _ := congrArg Prod.fst (Option.some.inj h).symm
      rw [h3]; exact ⟨rfl, rfl⟩

/-- A released store stays released across every successful step. -/
theorem released_step (pol : Policy) (po : Bool) (st : Store) (e : Element)
    (st' : Store) (out : List Emission) (hr : Released st)
    (h : processElement pol po st e = some (st', out)) : Released st' := by
  cases e with
  | node nid props latlon =>
    cases latlon with
    | none =>
      simp only [processElement] at h
      have h3 : st' = st := congrArg Prod.fst (Option.some.inj h).symm
      rw [h3]; exact hr
    | some p =>
      obtain ⟨lat, lon⟩ := p
      simp [processElement, hr.1, hr.2] at h
  | way wid props deps =>
    simp [processElement, hr.1] at h
  | relation rid props members =>
    exact relation_release pol po st rid props members st' out h

/-- A released store stays released across a whole run that ends without
crashing. -/
theorem released_run (pol : Policy) (po : Bool) :
    ∀ (input : List Element) (st : Store) (es : List Emission) (stf : Store),
      runPoly pol po st input = (es, some stf) → Released st → Released stf := by
  intro input
  induction input with
  | nil =>
    intro st es stf h hr
    simp only [runPoly] at h
    have h2 : some st = some stf := congrArg Prod.snd h
    rw [← Option.some.inj h2]; exact hr
  | cons e rest ih =>
    intro st es stf h hr
    simp only [runPoly] at h
    rcases hp : processElement pol po st e with _ | ⟨st1, out⟩
    · rw [hp] at h
      simp at h
    · rw [hp] at h
      have h2 : (runPoly pol po st1 rest).2 = some stf := congrArg Prod.snd h
      exact ih st1 (runPoly pol po st1 rest).1 stf
        (by rw [← h2]) (released_step pol po st e st1 out hr hp)

/-- C4: once a relation record has been ingested, point storage and its
identifier index are released; release is preserved by every later
successful step and by whole runs; and a point lookup against a released
store always fails instead of returning stale coordinates. -/
theorem c4_release_and_lookup_failure :
    (∀ (pol : Policy) (po : Bool) (st : Store) (rid : Int) (props : TagMap)
        (members : List (Int × String)) (st' : Store) (out : List Emission),
      processElement pol po st (.relation rid props members) = some (st', out) →
        Released st')
    ∧ (∀ (pol : Policy) (po : Bool) (st : Store) (e : Element) (st' : Store)
        (out : List Emission), Released st →
      processElement pol po st e = some (st', out) → Released st')
    ∧ (∀ st : Store, Released st → ∀ nid : Int, resolve_point st nid = none)
    ∧ (∀ (pol : Policy) (po : Bool) (input : List Element) (st : Store)
        (es : List Emission) (stf : Store), Released st →
      runPoly pol po st input = (es, some stf) → ∀ nid : Int,
        resolve_point stf nid = none) := by
  have hres : ∀ st : Store, Released st → ∀ nid : Int,
      resolve_point st nid = none := by
    intro st hr nid
    simp [resolve_point, hr.1, hr.2]
  exact ⟨fun pol po st rid props members st' out h =>
      relation_release pol po st rid props members st' out h,
    fun pol po st e st' out hr h => released_step pol po st e st' out hr h,
    hres,
    fun pol po input st es stf hr h nid =>
      hres stf (released_run pol po input st es stf h hr) nid⟩

/-- The store reached by ingesting one concrete relation from the fresh
reader, used by the C4 witness. -/
def c4PostStore : Store :=
  match processElement .admin false initStore
      (.relation 1 [("boundary", "b")] [(2, "outer")]) with
  | some p => p.1
  | none => initStore

/-- Witness for C4: after ingesting a concrete relation from the fresh
store, a lookup of point 7 fails. -/
theorem c4_release_witness : resolve_point c4PostStore 7 = none := by
  have h : processElement .admin false initStore
      (.relation 1 [("boundary", "b")] [(2, "outer")])
      = some (c4PostStore,
          [Emission.full (RELATION_OFFSET + 1) [("boundary", "b")] [] [] []]) := by
    decide
  exact c4_release_and_lookup_failure.2.2.1 c4PostStore
    (c4_release_and_lookup_failure.1 .admin false initStore 1 [("boundary", "b")]
      [(2, "outer")] c4PostStore _ h) 7

/-! ### The compressed-sparse-row invariant (claim C9) -/

/-- CsrOk only reads the way store, so it transfers between states whose
way store agrees. -/
theorem csrok_of_way_eq {st st' : Store} (hc : CsrOk st)
    (h1 : st'.way_ids = st.way_ids) (h2 : st'.way_deps = st.way_deps)
    (h3 : st'.way_indptr = st.way_indptr) : CsrOk st' := by
  unfold CsrOk at hc ⊢
  rw [h1, h2, h3]
  exact hc

/-- Appending one way of deps.length members (the way branch mutation)
preserves the compressed-sparse-row invariant. -/
theorem csrok_append (st : Store) (hc : CsrOk st) (wid : Int)
    (deps : List Int) (wcs : List Rat) :
    CsrOk { st with
            way_ids := st.way_ids ++ [wid],
            way_deps := st.way_deps ++ deps,
            way_coords := st.way_coords ++ wcs,
            way_indptr := st.way_indptr ++ [st.way_deps.length + deps.length] } := by
  obtain ⟨h0, hchain, hlast, hlen⟩ := hc
  refine ⟨?_, ?_, ?_, ?_⟩
  · show (st.way_indptr ++ [st.way_deps.length + deps.length]).head? = some 0
    rw [List.head?_append, h0]
    rfl
  · show List.Chain' (· ≤ ·) (st.way_indptr ++ [st.way_deps.length + deps.length])
    rw [List.chain'_append]
    refine ⟨hchain, List.chain'_singleton _, ?_⟩
    intro x hx y hy
    rw [hlast] at hx
    simp only [Option.mem_def, Option.some.injEq, List.head?_cons] at hx hy
    omega
  · show (st.way_indptr ++ [st.way_deps.length + deps.length]).getLast?
      = some (st.way_deps ++ deps).length
    rw [List.getLast?_concat, List.length_append]
  · show (st.way_indptr ++ [st.way_deps.length + deps.length]).length
      = (st.way_ids ++ [wid]).length + 1
    simp only [List.length_append, List.length_singleton]
    omega

/-- C9: the compressed offset index way_indptr starts at 0, is
monotonically non-decreasing, ends with the total length of way_deps, and
has one entry per stored way plus one; this holds in the initial state
and is preserved by every successful point, way and relation ingestion
step, including steps that skip their input. -/
theorem c9_csr_invariant :
    CsrOk initStore
      ∧ ∀ (pol : Policy) (po : Bool) (st : Store) (e : Element) (st' : Store)
          (out : List Emission), CsrOk st →
        processElement pol po st e = some (st', out) → CsrOk st' := by
  constructor
  · exact ⟨rfl, List.chain'_singleton 0, rfl, rfl⟩
  · intro pol po st e st' out hc h
    cases e with
    | node nid props latlon =>
      cases latlon with
      | none =>
        simp only [processElement] at h
        have h3 : st' = st := congrArg Prod.fst (Option.some.inj h).symm
        rw [h3]; exact hc
      | some p =>
        obtain ⟨lat, lon⟩ := p
        cases hcs : st.coords with
        | none => simp [processElement, hcs] at h
        | some cs =>
          cases hni : st.node_ids with
          | none => simp [processElement, hcs, hni] at h
          | some ids =>
            simp only [processElement, hcs, hni] at h
            have h3 : st' = _ := congrArg Prod.fst (Option.some.inj h).symm
            exact csrok_of_way_eq hc (by rw [h3]) (by rw [h3]) (by rw [h3])
    | way wid props deps =>
      cases hni : st.node_ids with
      | none => simp [processElement, hni] at h
      | some ids =>
        cases hres : resolveAll ids deps with
        | none =>
          simp only [processElement, hni, hres] at h
          have h3 : st' = st := congrArg Prod.fst (Option.some.inj h).symm
          rw [h3]; exact hc
        | some idxs =>
          cases hcs : st.coords with
          | none => simp [processElement, hni, hres, hcs] at h
          | some cs =>
            simp only [processElement, hni, hres, hcs] at h
            have key := csrok_append st hc wid deps
              (idxs.foldl (fun a i => a ++ [cs.getD (2 * i) 0, cs.getD (2 * i + 1) 0]) [])
            cases deps with
            | nil => simp at h
            | cons d rest =>
              cases hgl : (d :: rest).getLast? with
              | none => simp at hgl
              | some l =>
              simp only [List.head?_cons, hgl] at h
              split at h
              · split at h
                · split at h
                  · have h3 : st' = _ := congrArg Prod.fst (Option.some.inj h).symm
                    rw [h3]
                    exact csrok_of_way_eq key rfl rfl rfl
                  · have h3 : st' = _ := congrArg Prod.fst (Option.some.inj h).symm
                    rw [h3]
                    exact csrok_of_way_eq key rfl rfl rfl
                · have h3 : st' = _ := congrArg Prod.fst (Option.some.inj h).symm
                  rw [h3]
                  exact csrok_of_way_eq key rfl rfl rfl
              · have h3 : st' = _ := congrArg Prod.fst (Option.some.inj h).symm
                rw [h3]
                exact csrok_of_way_eq key rfl rfl rfl
    | relation rid props members =>
      simp only [processElement] at h
      split at h
      · have h3 : st' = _ := congrArg Prod.fst (Option.some.inj h).symm
        exact csrok_of_way_eq hc (by rw [h3]) (by rw [h3]) (by rw [h3])
      · split at h
        · have h3 : st' = _ := congrArg Prod.fst (Option.some.inj h).symm
          exact csrok_of_way_eq hc (by rw [h3]) (by rw [h3]) (by rw [h3])
        · have h3 : st' = _ := congrArg Prod.fst (Option.some.inj h).symm
          exact csrok_of_way_eq hc (by rw [h3]) (by rw [h3]) (by rw [h3])

/-- Witness for C9: the invariant holds after ingesting a two-member way
over two stored points. -/
theorem c9_csr_invariant_witness :
    (match processElement .admin false
        { initStore with node_ids := some [5, 6], coords := some [1, 2, 3, 4] }
        (.way 10 [] [5, 6]) with
     | some p => CsrOk p.1
     | none => False) := by
  have h : processElement .admin false
      { initStore with node_ids := some [5, 6], coords := some [1, 2, 3, 4] }
      (.way 10 [] [5, 6])
      = some ({ initStore with
                node_ids := some [5, 6],
                coords := some [1, 2, 3, 4],
                way_ids := [10],
                way_deps := [5, 6],
                way_coords := [1, 2, 3, 4],
                way_indptr := [0, 2] }, []) := by decide
  have hc : CsrOk { initStore with
      node_ids := some [5, 6], coords := some [1, 2, 3, 4] } :=
    ⟨rfl, List.chain'_singleton 0, rfl, rfl⟩
  rw [h]
  exact c9_csr_invariant.2 .admin false _ (.way 10 [] [5, 6]) _ [] hc h

/-! ### Frame of the relation step (claim C10) -/

/-- The member loop of the relation branch leaves the nodes dict and the
candidate accumulator untouched when no admin-centre member resolves. -/
theorem relStep_fold_frame (members : List (Int × String)) :
    ∀ acc : RelAcc,
      (∀ m ∈ members, m.2 = "admin_centre" → dictGet acc.nodes m.1 = none) →
      (members.foldl relStep acc).nodes = acc.nodes
        ∧ (members.foldl relStep acc).admin_centers = acc.admin_centers := by
  induction members with
  | nil => intro acc _; exact ⟨rfl, rfl⟩
  | cons m rest ih =>
    intro acc hm
    have hstep : (relStep acc m).nodes = acc.nodes
        ∧ (relStep acc m).admin_centers = acc.admin_centers := by
      unfold relStep
      split
      · exact ⟨rfl, rfl⟩
      · split
        · exact ⟨rfl, rfl⟩
        · split
          · next hrole =>
            rw [hm m (List.mem_cons_self m rest) hrole]
            exact ⟨rfl, rfl⟩
          · exact ⟨rfl, rfl⟩
    have hrest := ih (relStep acc m) (fun m' hm' hrole => by
      rw [hstep.1]; exact hm m' (List.mem_cons_of_mem m hm') hrole)
    rw [List.foldl_cons]
    exact ⟨hrest.1.trans hstep.1, hrest.2.trans hstep.2⟩

/-- C10 (amended): the relation step frees exactly the point identifier
index and the coordinate array; the whole way store is always unchanged;
and the retained nodes dict and the candidate accumulator are unchanged
whenever no admin-centre member of the relation resolves in the dict.
(When one resolves, its retained tag map gains an id entry in place, so
the nodes dict does change — see the counterexample.) -/
theorem c10_relation_frame (pol : Policy) (po : Bool) (st : Store)
    (rid : Int) (props : TagMap) (members : List (Int × String)) (st' : Store)
    (out : List Emission)
    (h : processElement pol po st (.relation rid props members) = some (st', out)) :
    st'.way_ids = st.way_ids ∧ st'.way_deps = st.way_deps
      ∧ st'.way_coords = st.way_coords ∧ st'.way_indptr = st.way_indptr
      ∧ st'.node_ids = none ∧ st'.coords = none
      ∧ ((∀ m ∈ members, m.2 = "admin_centre" → dictGet st.nodes m.1 = none) →
          st'.nodes = st.nodes ∧ st'.admin_centers = st.admin_centers) := by
  simp only [processElement] at h
  split at h
  · have h3 : st' = _ := congrArg Prod.fst (Option.some.inj h).symm
    rw [h3]
    exact ⟨rfl, rfl, rfl, rfl, rfl, rfl, fun _ => ⟨rfl, rfl⟩⟩
  · split at h
    · have h3 : st' = _ := congrArg Prod.fst (Option.some.inj h).symm
      rw [h3]
      refine ⟨rfl, rfl, rfl, rfl, rfl, rfl, fun hm => ?_⟩
      exact relStep_fold_frame members ⟨[], [], st.nodes, st.admin_centers⟩
        (fun m hmem hrole => hm m hmem hrole)
    · have h3 : st' = _ := congrArg Prod.fst (Option.some.inj h).symm
      rw [h3]
      refine ⟨rfl, rfl, rfl, rfl, rfl, rfl, fun hm => ?_⟩
      exact relStep_fold_frame members ⟨[], [], st.nodes, st.admin_centers⟩
        (fun m hmem hrole => hm m hmem hrole)

/-- Witness for C10 at a concrete relation with no resolvable
admin-centre member from a store holding one retained point. -/
theorem c10_relation_frame_witness :
    (match processElement .admin false
        { initStore with nodes := [(8, [("name", "A"), ("place", "town")])] }
        (.relation 1 [("boundary", "b")] [(7, "admin_centre"), (2, "outer")]) with
     | some p =>
        p.1.way_indptr = [0] ∧ p.1.node_ids = none
          ∧ p.1.nodes = [(8, [("name", "A"), ("place", "town")])]
     | none => False) := by
  have h : processElement .admin false
      { initStore with nodes := [(8, [("name", "A"), ("place", "town")])] }
      (.relation 1 [("boundary", "b")] [(7, "admin_centre"), (2, "outer")])
      = some ({ initStore with
                node_ids := none, coords := none,
                nodes := [(8, [("name", "A"), ("place", "town")])] },
          [Emission.full (RELATION_OFFSET + 1) [("boundary", "b")] [] [] []]) := by
    decide
  rw [h]
  have hf := c10_relation_frame .admin false
    { initStore with nodes := [(8, [("name", "A"), ("place", "town")])] }
    1 [("boundary", "b")] [(7, "admin_centre"), (2, "outer")] _ _ h
  exact ⟨hf.2.2.2.1.trans rfl, hf.2.2.2.2.1,
    (hf.2.2.2.2.2.2 (by decide)).1.trans rfl⟩

/-- C10 counterexample: a relation whose admin-centre member resolves
mutates the retained nodes dict in place (the tag map gains an id entry),
so not every piece of state other than the point store is left
unchanged. -/
theorem c10_counterexample :
    processElement .admin false
        { initStore with nodes := [(7, [("name", "A"), ("place", "town")])] }
        (.relation 1 [("boundary", "b")] [(7, "admin_centre")])
      = some ({ initStore with
                node_ids := none, coords := none,
                nodes := [(7, [("name", "A"), ("place", "town"), ("id", "7")])],
                admin_centers := [[("name", "A"), ("place", "town"), ("id", "7")]] },
          [Emission.full (RELATION_OFFSET + 1) [("boundary", "b")]
            [("name", "A"), ("place", "town"), ("id", "7")] [] []])
      ∧ ([(7, [("name", "A"), ("place", "town"), ("id", "7")])] : List (Int × TagMap))
          ≠ [(7, [("name", "A"), ("place", "town")])] := by
  exact ⟨by decide, by decide⟩

/-! ### Closed single segment (claim C6) -/

/-- C6: a stored way whose first and last member identifiers are equal is
reconstructed by create_polygons, applied to that single way, as exactly
one ring equal to its own stored coordinate slice, unreversed; the way is
registered under no endpoint, so it takes no part in graph
construction. -/
theorem c6_closed_single_segment (st : Store) (way_id : Int) (i : Nat)
    (hfind : binary_search st.way_ids way_id = some i)
    (hclosed : st.way_deps.getD (st.way_indptr.getD i 0) 0
      = st.way_deps.getD (st.way_indptr.getD (i + 1) 0 - 1) 0) :
    create_polygons st [way_id] = [node_coordinates st.way_coords st.way_indptr i]
      ∧ ([way_id].foldl (cpStep st) ⟨[], [], [], []⟩).end_nodes = [] := by
  have hstep : cpStep st ⟨[], [], [], []⟩ way_id
      = ⟨[], [node_coordinates st.way_coords st.way_indptr i],
          dictSet [] way_id i,
          dictSet [] way_id
            (st.way_deps.getD (st.way_indptr.getD i 0) 0,
              st.way_deps.getD (st.way_indptr.getD (i + 1) 0 - 1) 0)⟩ := by
    simp only [cpStep, hfind]
    rw [if_pos hclosed]
    rfl
  constructor
  · unfold create_polygons
    rw [List.foldl_cons, List.foldl_nil, hstep]
    rfl
  · rw [List.foldl_cons, List.foldl_nil, hstep]

/-- Witness for C6: the closed three-member way [5, 6, 5] reconstructs to
its own stored coordinate sequence. -/
theorem c6_closed_single_segment_witness :
    create_polygons
        { initStore with
          way_ids := [7], way_deps := [5, 6, 5],
          way_coords := [10, 20, 30, 40, 10, 20], way_indptr := [0, 3] } [7]
      = [[(10, 20), (30, 40), (10, 20)]] := by
  have h := c6_closed_single_segment
    { initStore with
      way_ids := [7], way_deps := [5, 6, 5],
      way_coords := [10, 20, 30, 40, 10, 20], way_indptr := [0, 3] }
    7 0 (by decide) (by decide)
  exact h.1.trans (by decide)

/-! ### The simple-cycle ring reconstruction (claim C1) -/

/-- The store of the C1 counterexample: three stored ways [1, 4, 2],
[2, 5, 3] and [3, 6, 1], each carrying one interior point, whose
endpoint-adjacency graph is one simple cycle of length three. -/
def triStore : Store :=
  { initStore with
    node_ids := none,
    coords := none,
    way_ids := [11, 12, 13],
    way_deps := [1, 4, 2, 2, 5, 3, 3, 6, 1],
    way_coords := [0, 0, 5, 5, 1, 0, 1, 0, 6, 6, 0, 1, 0, 1, 7, 7, 0, 0],
    way_indptr := [0, 3, 6, 9] }

/-- Detects a duplicate consecutive coordinate in a ring. -/
def hasConsecutiveDup : List Coord → Bool
  | x :: y :: rest => x == y || hasConsecutiveDup (y :: rest)
  | _ => false

/-- C1 counterexample: on a simple 3-cycle of open ways carrying interior
points, create_polygons emits one ring in which the interior coordinate
(7, 7) of the closing way appears twice in a row — the walk pops that way
twice, so the no-duplicate-consecutive-coordinates part of the claim
fails. -/
theorem c1_counterexample :
    create_polygons triStore [11, 12, 13]
      = [[(0, 0), (5, 5), (1, 0), (6, 6), (0, 1), (7, 7), (7, 7)]]
      ∧ hasConsecutiveDup
          [((0 : Rat), (0 : Rat)), (5, 5), (1, 0), (6, 6), (0, 1), (7, 7), (7, 7)]
        = true :=
  ⟨by decide, by decide⟩

/-- The concrete square scenario of the claim: points 1..4 at the unit
square corners (latitude first, longitude second, as the parse layer
delivers them), four open two-point ways, one relation with the four ways
as outer members tagged boundary=administrative. -/
def squareInput : List Element :=
  [ .node 1 [] (some (0, 0))
  , .node 2 [] (some (0, 1))
  , .node 3 [] (some (1, 1))
  , .node 4 [] (some (1, 0))
  , .way 101 [] [1, 2]
  , .way 102 [] [2, 3]
  , .way 103 [] [3, 4]
  , .way 104 [] [4, 1]
  , .relation 200 [("boundary", "administrative")]
      [(101, "outer"), (102, "outer"), (103, "outer"), (104, "outer")] ]

/-- A second concrete simple cycle: five points, five two-point ways
forming one 5-cycle in which way 202 is stored end-to-start (so the walk
must reverse it), given as the outer members of one relation. -/
def pentInput : List Element :=
  [ .node 1 [] (some (1, 11))
  , .node 2 [] (some (2, 12))
  , .node 3 [] (some (3, 13))
  , .node 4 [] (some (4, 14))
  , .node 5 [] (some (5, 15))
  , .way 201 [] [1, 2]
  , .way 202 [] [3, 2]
  , .way 203 [] [3, 4]
  , .way 204 [] [4, 5]
  , .way 205 [] [5, 1]
  , .relation 400 [("boundary", "administrative")]
      [(201, "outer"), (202, "outer"), (203, "outer"), (204, "outer"), (205, "outer")] ]

/-- C1 (amended): the concrete square scenario holds exactly as stated —
under the Administrative policy the relation emits exactly one outer ring
equal to the ordered square [(0,0), (1,0), (1,1), (0,1)], with each
shared endpoint exactly once, no duplicate consecutive coordinates and no
inner rings; likewise the concrete 5-cycle pentInput, which contains a
way stored end-to-start, emits exactly one outer ring with the five
endpoints in cycle order, each exactly once.  The general simple-cycle
statement is not asserted: it fails as soon as segments carry interior
coordinates, because the walk pops the cycle-closing segment twice and
emits its interior coordinates twice (see the counterexample). -/
theorem c1_square_scenario :
    (polygons .admin false squareInput).1
      = [Emission.full (RELATION_OFFSET + 200) [("boundary", "administrative")] []
          [[(0, 0), (1, 0), (1, 1), (0, 1)]] []]
      ∧ (polygons .admin false pentInput).1
        = [Emission.full (RELATION_OFFSET + 400) [("boundary", "administrative")] []
            [[(11, 1), (12, 2), (13, 3), (14, 4), (15, 5)]] []] :=
  ⟨by decide, by decide⟩

/-! ### Closed single way emission (claim C7) -/

/-- Input of the C7 scenario: two points and the closed single way
[5, 6, 5] tagged building=yes, with arbitrary coordinates. -/
def closedWayInput (lat5 lon5 lat6 lon6 : Rat) : List Element :=
  [ .node 5 [] (some (lat5, lon5))
  , .node 6 [] (some (lat6, lon6))
  , .way 7 [("building", "yes")] [5, 6, 5] ]

/-- C7 (amended): for arbitrary coordinates of points 5 and 6, ingesting
the closed single way [5, 6, 5] tagged building=yes under the Building
policy emits one segment-derived result (identifier offset by the
segment namespace) with an empty admin-center record, no inner rings,
and exactly one outer ring equal to the full stored coordinate sequence
[(x5,y5), (x6,y6), (x5,y5)] — the closing coordinate is repeated, so the
ring has three entries, not two. -/
theorem c7_closed_way_emission (lat5 lon5 lat6 lon6 : Rat) :
    (polygons .building false (closedWayInput lat5 lon5 lat6 lon6)).1
      = [Emission.full (WAY_OFFSET + 7) [("building", "yes")] []
          [[(clampLon lon5, lat5), (clampLon lon6, lat6), (clampLon lon5, lat5)]] []] := by
  with_unfolding_all rfl

/-- C7 counterexample: at concrete coordinates (x5,y5) = (10,20) and
(x6,y6) = (30,40) the emitted outer ring is the three-coordinate sequence
[(10,20), (30,40), (10,20)], not the claimed two-coordinate
[(x5,y5), (x6,y6)]. -/
theorem c7_counterexample :
    (polygons .building false (closedWayInput 20 10 40 30)).1
      = [Emission.full (WAY_OFFSET + 7) [("building", "yes")] []
          [[(10, 20), (30, 40), (10, 20)]] []]
      ∧ ([[((10 : Rat), (20 : Rat)), (30, 40), (10, 20)]] : List (List Coord))
          ≠ [[(10, 20), (30, 40)]] :=
  ⟨by decide, by decide⟩

/-! ### Admin-center resolution (claim C2) -/

/-- Input of the C2 scenario: one retained point (name and place tags),
one relation resolving it as admin-centre, then a second relation with no
admin-centre member at all. -/
def c2Input : List Element :=
  [ .node 7 [("name", "X"), ("place", "city")] (some (2, 1))
  , .relation 100 [("boundary", "administrative")] [(7, "admin_centre")]
  , .relation 101 [("boundary", "administrative")] [(999, "outer")] ]

/-- C2 (code bug): the candidate accumulator is run-wide, never reset per
relation, so relation 101 — which resolves zero admin-centre candidates
from its own members — is emitted with relation 100 record, a non-empty
admin-center, where the claim (and the spec intent) requires an empty
one. -/
theorem c2_admin_center_leak :
    (polygons .admin false c2Input).1
      = [Emission.full (RELATION_OFFSET + 100) [("boundary", "administrative")]
           [("name", "X"), ("place", "city"), ("id", "7")] [] [],
         Emission.full (RELATION_OFFSET + 101) [("boundary", "administrative")]
           [("name", "X"), ("place", "city"), ("id", "7")] [] []]
      ∧ ([("name", "X"), ("place", "city"), ("id", "7")] : TagMap) ≠ [] :=
  ⟨by decide, by decide⟩

/-! ### Determinism and re-invocation (claim C8) -/

/-- If the input holds a relation and the run ends without crashing, the
final state is released. -/
theorem run_relation_released (pol : Policy) (po : Bool) :
    ∀ (input : List Element) (st : Store) (es : List Emission) (stf : Store),
      runPoly pol po st input = (es, some stf) →
      (∃ rid props members, Element.relation rid props members ∈ input) →
      Released stf := by
  intro input
  induction input with
  | nil =>
    intro st es stf h hex
    obtain ⟨rid, ps, ms, hmem⟩ := hex
    cases hmem
  | cons e rest ih =>
    intro st es stf h hex
    simp only [runPoly] at h
    rcases hp : processElement pol po st e with _ | ⟨st1, out⟩
    · rw [hp] at h
      simp at h
    · rw [hp] at h
      have h2 : (runPoly pol po st1 rest).2 = some stf := congrArg Prod.snd h
      have hrun : runPoly pol po st1 rest = ((runPoly pol po st1 rest).1, some stf) := by
        rw [← h2]
      cases e with
      | relation rid props members =>
        exact released_run pol po rest st1 _ stf hrun
          (relation_release pol po st rid props members st1 out hp)
      | node nid props latlon =>
        obtain ⟨rid, ps, ms, hmem⟩ := hex
        rcases List.mem_cons.mp hmem with hh | ht
        · exact Element.noConfusion hh
        · exact ih st1 _ stf hrun ⟨rid, ps, ms, ht⟩
      | way wid props deps =>
        obtain ⟨rid, ps, ms, hmem⟩ := hex
        rcases List.mem_cons.mp hmem with hh | ht
        · exact Element.noConfusion hh
        · exact ih st1 _ stf hrun ⟨rid, ps, ms, ht⟩

/-- C8 (amended): the pipeline is a deterministic function of its input
when started from the fresh store (polygons is a function), but
re-invoking the generator on the same reader does not re-produce the
results: the reader state persists across invocations, so after a
completed run that ingested a relation, a second invocation dies at its
first point record — released coordinate storage crashes the append —
yielding no emissions instead of the first run emissions. -/
theorem c8_rerun_crashes (pol : Policy) (po : Bool) (input : List Element)
    (es : List Emission) (st1 : Store)
    (h : runPoly pol po initStore input = (es, some st1))
    (hrel : ∃ rid props members, Element.relation rid props members ∈ input)
    (nid : Int) (props : TagMap) (lat lon : Rat) (rest : List Element) :
    runPoly pol po st1 (Element.node nid props (some (lat, lon)) :: rest)
      = ([], none) := by
  have hr : Released st1 :=
    run_relation_released pol po input initStore es st1 h hrel
  have hcrash : processElement pol po st1
      (Element.node nid props (some (lat, lon))) = none := by
    simp [processElement, hr.1, hr.2]
  simp [runPoly, hcrash]

/-- The reader state left behind by the first run over c8Input. -/
def c8PostStore : Store :=
  { initStore with node_ids := none, coords := none }

/-- Input of the C8 scenario: one point, then one relation. -/
def c8Input : List Element :=
  [ Element.node 9 [] (some (0, 0))
  , Element.relation 300 [("boundary", "x")] [(101, "outer")] ]

/-- C8 counterexample: the first run over c8Input emits one tuple and
finishes; re-invoking over the same input from the persisted reader state
emits nothing and crashes, so the two invocations do not produce
identical emission sequences. -/
theorem c8_counterexample :
    polygons .admin false c8Input
      = ([Emission.full (RELATION_OFFSET + 300) [("boundary", "x")] [] [] []],
          some c8PostStore)
      ∧ runPoly .admin false c8PostStore c8Input = ([], none)
      ∧ ([Emission.full (RELATION_OFFSET + 300) [("boundary", "x")] [] [] []]
          : List Emission) ≠ [] :=
  ⟨by decide, by decide, by decide⟩

/-- Witness for C8: the amended theorem applied to the concrete c8Input
run. -/
theorem c8_rerun_crashes_witness :
    runPoly .admin false c8PostStore c8Input = ([], none) := by
  have h : runPoly .admin false initStore c8Input
      = ([Emission.full (RELATION_OFFSET + 300) [("boundary", "x")] [] [] []],
          some c8PostStore) := by decide
  exact c8_rerun_crashes .admin false c8Input _ c8PostStore h
    ⟨300, [("boundary", "x")], [(101, "outer")], by decide⟩ 9 [] 0 0
    [Element.relation 300 [("boundary", "x")] [(101, "outer")]]

end AdminBoundaries
